import Mathlib

/-!
A shallow embedding of the voice-state cache (`src/cache.rs`, `src/commands.rs`,
`src/resp_impl.rs`, `src/model.rs`, `src/gen.rs`) of the `itskiru/cache`
repository, together with proofs and refutations of the frozen claims about it.

The backing key-value store is Redis, reached through `redis-async`'s
`PairedConnection`.  We model the store as a partial map from key strings to
typed Redis values (string / hash / set), and every primitive command with its
Redis semantics: reads of a key of the wrong type fail with a `WRONGTYPE`
error, write commands that fail on the server have no effect, and hashes and
sets whose last entry is removed disappear as keys.  Fire-and-forget writes
(`send_and_forget`, the `*_sync` methods of `CommandablePairedConnection`) are
modelled as plain store transformers: the connection serializes them in issue
order and their result is discarded by construction.
-/

set_option maxHeartbeats 1000000
set_option maxRecDepth 8000

namespace Cache

/-- `redis_async::resp::RespValue`.  Byte strings are modelled as `String`. -/
inductive Resp where
  | nil
  | int (n : Int)
  | bulk (s : String)
  | simple (s : String)
  | arr (xs : List Resp)
  | rerr (msg : String)

/-- `serde_json::Value`, restricted to the shapes `resp_to_value` produces. -/
inductive JValue where
  | null
  | num (n : Int)
  | str (s : String)
  | arr (xs : List JValue)

/-- A value stored at a Redis key.  Hashes keep field insertion order (the
order `HGETALL` enumerates), sets keep element insertion order (the order
`SMEMBERS` enumerates). -/
inductive RVal where
  | str (s : String)
  | hash (fields : List (String × String))
  | rset (elems : List String)
  deriving DecidableEq, Repr

/-- The whole key-value store. -/
def Store := String → Option RVal

def emptyStore : Store := fun _ => none

/-- The error kinds of `src/error.rs` that the embedded operations can
produce.  `redis` covers `Error::Redis` (command failures such as `WRONGTYPE`
and materialization failures, which `redis-async` reports as `Error`s);
`noneE` is `Error::None` (from `NoneError`); `panicked` marks a Rust panic
(`unreachable!` / `unwrap`). -/
inductive Err where
  | redis
  | noneE
  | parseInt
  | panicked
  deriving DecidableEq, Repr

/-! ## Decimal rendering and parsing

Rust renders the `usize` arguments of the store commands with `Display`
(plain decimal digits) and parses identifiers back with `str::parse::<u64>`.
`natToDec` is the decimal rendering; `parseU64` is `u64` parsing on the digit
strings this cache can produce (Rust additionally accepts a leading `+`,
which no write of this cache ever emits). -/

def digitChar (d : Nat) : Char := Char.ofNat (48 + d)

def natToDecAux : Nat → Nat → List Char → List Char
  | 0, _, acc => acc
  | _ + 1, 0, acc => acc
  | fuel + 1, n, acc => natToDecAux fuel (n / 10) (digitChar (n % 10) :: acc)

def natToDec (n : Nat) : String :=
  if n = 0 then "0" else ⟨natToDecAux n n []⟩

def digitVal (c : Char) : Option Nat :=
  if 48 ≤ c.toNat ∧ c.toNat ≤ 57 then some (c.toNat - 48) else none

def parseDecAux : List Char → Nat → Option Nat
  | [], acc => some acc
  | c :: cs, acc =>
    match digitVal c with
    | some d => parseDecAux cs (acc * 10 + d)
    | none => none

/-- `str::parse::<u64>` on a plain digit string: all characters must be
decimal digits, the string must be nonempty, and the value must fit `u64`. -/
def parseU64 (s : String) : Option Nat :=
  match s.data with
  | [] => none
  | cs =>
    match parseDecAux cs 0 with
    | some n => if n < 2 ^ 64 then some n else none
    | none => none

/-! ## Key generation (`src/gen.rs`) -/

namespace gen

def channel (id : Nat) : String := "ch:" ++ natToDec id

def channel_voice_states (id : Nat) : String := "ch:" ++ natToDec id ++ ":v"

def guild (id : Nat) : String := "g:" ++ natToDec id

def guild_channels (id : Nat) : String := "g:" ++ natToDec id ++ ":c"

def guild_features (id : Nat) : String := "g:" ++ natToDec id ++ ":f"

def guild_members (id : Nat) : String := "g:" ++ natToDec id ++ ":m"

def guild_roles (id : Nat) : String := "g:" ++ natToDec id ++ ":r"

def guild_voice_states (guild_id : Nat) : String := "g:" ++ natToDec guild_id ++ ":v"

def member (guild_id user_id : Nat) : String :=
  "g:" ++ natToDec guild_id ++ ":m:" ++ natToDec user_id

def member_roles (guild_id user_id : Nat) : String :=
  "g:" ++ natToDec guild_id ++ ":m:" ++ natToDec user_id ++ ":r"

def role (guild_id role_id : Nat) : String :=
  "g:" ++ natToDec guild_id ++ ":r:" ++ natToDec role_id

def user_voice_state (guild_id user_id : Nat) : String :=
  "g:" ++ natToDec guild_id ++ ":v:" ++ natToDec user_id

end gen

/-! ## Association lists (Redis hashes and `serde_json` maps) -/

/-- First-occurrence lookup in an association list (Redis hashes and serde
maps have unique keys, so first = only occurrence on well-formed data). -/
def lookupK {β : Type} : List (String × β) → String → Option β
  | [], _ => none
  | (g, v) :: t, f => if g = f then some v else lookupK t f

/-- Insert-or-overwrite, keeping the position of an existing key: the
behavior of `HSET` on an existing field and of `serde_json::Map::insert`. -/
def setK {β : Type} : List (String × β) → String → β → List (String × β)
  | [], f, v => [(f, v)]
  | (g, w) :: t, f, v => if g = f then (f, v) :: t else (g, w) :: setK t f v

/-- Apply a sequence of field writes (the `HMSET` field/value pairs, in
order). -/
def setKs {β : Type} (l : List (String × β)) (vs : List (String × β)) :
    List (String × β) :=
  vs.foldl (fun h p => setK h p.1 p.2) l

/-- `HDEL`: drop every field whose name is listed. -/
def delKs {β : Type} (l : List (String × β)) (fs : List String) :
    List (String × β) :=
  l.filter (fun p => !(fs.contains p.1))

/-! ## Primitive store commands -/

def Store.upd (s : Store) (k : String) (v : Option RVal) : Store :=
  fun k2 => if k2 = k then v else s k2

/-- `DEL` (fire-and-forget flavor `del_sync`): `DEL` never fails. -/
def del_sync (s : Store) (k : String) : Store := s.upd k none

/-- Adding to a set, preserving insertion order, ignoring duplicates. -/
def saddList (l : List String) (vs : List String) : List String :=
  vs.foldl (fun acc v => if acc.contains v then acc else acc ++ [v]) l

/-- Removing from a set. -/
def sremList (l : List String) (vs : List String) : List String :=
  l.filter (fun x => !(vs.contains x))

/-- `SADD` as issued by `CommandablePairedConnection::sadd_sync`: the method
returns without sending anything when the value list is empty; on the server,
`SADD` creates the set if the key is absent, and fails with `WRONGTYPE` (no
effect) on a key of another type. -/
def sadd_sync (s : Store) (k : String) (vs : List String) : Store :=
  if vs.isEmpty then s
  else
    match s k with
    | none => s.upd k (some (.rset (saddList [] vs)))
    | some (.rset l) => s.upd k (some (.rset (saddList l vs)))
    | some _ => s

/-- `SREM` fire-and-forget: removing the last member deletes the key;
`WRONGTYPE` or a missing key leaves the store unchanged. -/
def srem_sync (s : Store) (k : String) (vs : List String) : Store :=
  match s k with
  | some (.rset l) =>
    let l2 := sremList l vs
    if l2.isEmpty then s.upd k none else s.upd k (some (.rset l2))
  | _ => s

/-- Awaited `SREM` (`CommandablePairedConnection::srem`): returns the integer
reply (number of members actually removed), or the `WRONGTYPE` error. -/
def sremCmd (s : Store) (k : String) (vs : List String) :
    Store × Except Err Resp :=
  match s k with
  | none => (s, .ok (.int 0))
  | some (.rset l) =>
    let l2 := sremList l vs
    ((if l2.isEmpty then s.upd k none else s.upd k (some (.rset l2))),
      .ok (.int (l.length - l2.length)))
  | some _ => (s, .error .redis)

/-- `HMSET` fire-and-forget: creates the hash if absent, overwrites the named
fields otherwise; `WRONGTYPE` has no effect.  Never issued with an empty
field list by this cache. -/
def hmset_sync (s : Store) (k : String) (vs : List (String × String)) : Store :=
  match s k with
  | none => s.upd k (some (.hash (setKs [] vs)))
  | some (.hash l) => s.upd k (some (.hash (setKs l vs)))
  | some _ => s

/-- `HDEL` fire-and-forget: removing the last field deletes the key. -/
def hdel_sync (s : Store) (k : String) (fs : List String) : Store :=
  match s k with
  | some (.hash l) =>
    let l2 := delKs l fs
    if l2.isEmpty then s.upd k none else s.upd k (some (.hash l2))
  | _ => s

/-- Awaited `GET`: `Nil` on a missing key, the string on a string key,
`WRONGTYPE` on anything else. -/
def getCmd (s : Store) (k : String) : Except Err Resp :=
  match s k with
  | none => .ok .nil
  | some (.str v) => .ok (.bulk v)
  | some _ => .error .redis

/-- Awaited `HGETALL`, already flattened to the alternating
field/value bulk-string array Redis replies with. -/
def flattenHash : List (String × String) → List Resp
  | [] => []
  | (f, v) :: t => .bulk f :: .bulk v :: flattenHash t

def hgetallCmd (s : Store) (k : String) : Except Err (List Resp) :=
  match s k with
  | none => .ok []
  | some (.hash l) => .ok (flattenHash l)
  | some _ => .error .redis

/-- Awaited `SMEMBERS`, as a RESP array of bulk strings. -/
def smembersCmd (s : Store) (k : String) : Except Err Resp :=
  match s k with
  | none => .ok (.arr [])
  | some (.rset l) => .ok (.arr (l.map .bulk))
  | some _ => .error .redis

/-! ## `src/resp_impl.rs` -/

/-- `RespValueExt::into_array`: `unreachable!` (a panic) on anything that is
not a RESP array. -/
def into_array : Resp → Except Err (List Resp)
  | .arr v => .ok v
  | _ => .error .panicked

/-- `RespValueExt::into_string`: panics on anything that is not a RESP
string. -/
def into_string : Resp → Except Err String
  | .bulk s => .ok s
  | .simple s => .ok s
  | _ => .error .panicked

/-! ## Entity materializer (`src/model.rs`) -/

/-- The bulk-string case of `resp_to_value`: a string that parses as `u64`
becomes a JSON number, anything else stays a string. -/
def strToJ (s : String) : JValue :=
  match parseU64 s with
  | some n => .num (Int.ofNat n)
  | none => .str s

mutual

/-- `model.rs::resp_to_value`.  A RESP `Error` value panics (`panic!`). -/
def resp_to_value : Resp → Except Err JValue
  | .nil => .ok .null
  | .arr rs => Except.map .arr (resps_to_values rs)
  | .bulk s => .ok (strToJ s)
  | .rerr _ => .error .panicked
  | .int n => .ok (.num n)
  | .simple s => .ok (.str s)

def resps_to_values : List Resp → Except Err (List JValue)
  | [] => .ok []
  | r :: rs =>
    match resp_to_value r, resps_to_values rs with
    | .ok v, .ok vs => .ok (v :: vs)
    | .error e, _ => .error e
    | _, .error e => .error e

end

/-- A `serde_json::Map`.  `serde_json`'s default map is ordered by key while
ours keeps insertion order, but the decoders below only ever look keys up, so
the two representations are observationally identical. -/
abbrev JMap := List (String × JValue)

/-- `model.rs::create_hashmap`: pair up the flattened field/value sequence.
An odd-length input panics on `iter.next().unwrap()`; `into_string` panics on
a non-string key. -/
def create_hashmap_go (acc : JMap) : List Resp → Except Err JMap
  | [] => .ok acc
  | [_] => .error .panicked
  | k :: v :: rest =>
    match resp_to_value v, into_string k with
    | .ok jv, .ok ks => create_hashmap_go (setK acc ks jv) rest
    | .error e, _ => .error e
    | _, .error e => .error e

def create_hashmap (resp : List Resp) : Except Err JMap :=
  create_hashmap_go [] resp

/-- Plain serde `u64`: only a nonnegative in-range JSON number. -/
def decodeU64 : JValue → Except Err Nat
  | .num n => if 0 ≤ n ∧ n < 2 ^ 64 then .ok n.toNat else .error .redis
  | _ => .error .redis

/-- `serde_aux::deserialize_number_from_string` at `u64`: accepts a number or
a string that parses as `u64`. -/
def numberFromString : JValue → Except Err Nat
  | .num n => if 0 ≤ n ∧ n < 2 ^ 64 then .ok n.toNat else .error .redis
  | .str s =>
    match parseU64 s with
    | some n => .ok n
    | none => .error .redis
  | _ => .error .redis

/-- `serde_aux::deserialize_string_from_number`: accepts a string or a number
(rendered back to its decimal form). -/
def stringFromNumber : JValue → Except Err String
  | .str s => .ok s
  | .num n => .ok (if n < 0 then "-" ++ natToDec (-n).toNat else natToDec n.toNat)
  | _ => .error .redis

/-- serde `Option<u64>`: a missing or null field is `None`. -/
def decodeOptU64 : Option JValue → Except Err (Option Nat)
  | none => .ok none
  | some .null => .ok none
  | some v => Except.map some (decodeU64 v)

def decodeString : JValue → Except Err String
  | .str s => .ok s
  | _ => .error .redis

def decodeU64List : JValue → Except Err (List Nat)
  | .arr xs => xs.mapM decodeU64
  | _ => .error .redis

def decodeStringList : JValue → Except Err (List String)
  | .arr xs => xs.mapM decodeString
  | _ => .error .redis

/-- A required serde field: missing means a deserialization error. -/
def jreq (m : JMap) (f : String) : Except Err JValue :=
  match lookupK m f with
  | some v => .ok v
  | none => .error .redis

/-- `model.rs::VoiceState`: the materialized voice state.  Its only fields
are `channel_id` (via `deserialize_number_from_string`) and `session_id`
(via `deserialize_string_from_number`); serde ignores the other hash
fields. -/
structure CachedVoiceState where
  channel_id : Nat
  session_id : String
  deriving DecidableEq, Repr

def decodeVoiceState (m : JMap) : Except Err CachedVoiceState := do
  let c ← jreq m "channel_id" >>= numberFromString
  let sid ← jreq m "session_id" >>= stringFromNumber
  pure ⟨c, sid⟩

/-- `model.rs::convert` instantiated at `VoiceState` (the `FromResp` impl
generated by `from_resp_impls!`). -/
def convertVoiceState (r : Resp) : Except Err CachedVoiceState :=
  match r with
  | .arr xs => do
    let m ← create_hashmap xs
    decodeVoiceState m
  | _ => .error .redis

/-- `model.rs::Guild`: the materialized guild.  The `HashSet` fields are kept
in decode order. -/
structure GuildM where
  afk_channel_id : Option Nat
  channels : List Nat
  features : List String
  members : List Nat
  name : String
  owner_id : Nat
  region : String
  roles : List Nat
  voice_states : List Nat
  deriving DecidableEq, Repr

def decodeGuild (m : JMap) : Except Err GuildM := do
  let afk ← decodeOptU64 (lookupK m "afk_channel_id")
  let channels ← jreq m "channels" >>= decodeU64List
  let features ← jreq m "features" >>= decodeStringList
  let members ← jreq m "members" >>= decodeU64List
  let name ← jreq m "name" >>= decodeString
  let owner_id ← jreq m "owner_id" >>= numberFromString
  let region ← jreq m "region" >>= decodeString
  let roles ← jreq m "roles" >>= decodeU64List
  let voice_states ← jreq m "voice_states" >>= decodeU64List
  pure ⟨afk, channels, features, members, name, owner_id, region, roles,
    voice_states⟩

/-! ## Inputs to the write paths

These mirror the `serenity` snapshot types exactly in the fields the cache
reads from them. -/

/-- `serenity::model::VoiceState`, in the fields `upsert_voice_state`
uses. -/
structure VoiceStateInput where
  user_id : Nat
  channel_id : Option Nat
  mute : Bool
  self_deaf : Bool
  self_mute : Bool
  suppress : Bool
  session_id : String
  token : Option String
  deriving DecidableEq, Repr

/-- `serenity::model::Member`, in the fields `upsert_member` uses.
`joined_at` carries the blob `serde_json::to_vec(&joined_at)` produces
(serializing a timestamp cannot fail). -/
structure MemberInput where
  guild_id : Nat
  user_id : Nat
  deaf : Bool
  mute : Bool
  joined_at : Option String
  nick : Option String
  roles : List Nat
  deriving DecidableEq, Repr

/-- `serenity::model::Role`, in the fields `upsert_role` uses. -/
structure RoleInput where
  id : Nat
  colour : Nat
  name : String
  permissions : Nat
  deriving DecidableEq, Repr

/-- A full `serenity::model::Guild` snapshot, in the fields `upsert_guild`
uses.  `channels` are the keys of the snapshot's channel map; `members`,
`roles` and `voice_states` are its map values (their ids are the map
keys). -/
structure GuildInput where
  id : Nat
  name : String
  owner_id : Nat
  region : String
  afk_channel_id : Option Nat
  channels : List Nat
  features : List String
  members : List MemberInput
  roles : List RoleInput
  voice_states : List VoiceStateInput
  deriving DecidableEq, Repr

/-- `usize::from(bool)` rendered in decimal. -/
def boolStr (b : Bool) : String := if b then "1" else "0"

/-! ## Cache read operations (`src/cache.rs`) -/

/-- `Cache::get_voice_state`: `HGETALL` the per-user key; an empty reply is
`Ok(None)`, otherwise materialize. -/
def get_voice_state (s : Store) (guild_id user_id : Nat) :
    Except Err (Option CachedVoiceState) := do
  let value ← hgetallCmd s (gen.user_voice_state guild_id user_id)
  if value.isEmpty then
    pure none
  else
    Except.map some (convertVoiceState (.arr value))

/-- `Cache::get_voice_state_list`: issues `GET` (not `SMEMBERS`) on the
guild's voice-state set key.  A missing key replies `Nil` and yields `[]`;
a set-typed key fails with `WRONGTYPE`; a string-typed key cannot convert to
`Vec<u64>` (`FromResp` for `Vec` only accepts arrays), which is also an
`Error::Redis`. -/
def get_voice_state_list (s : Store) (guild_id : Nat) :
    Except Err (List Nat) := do
  let resp ← getCmd s (gen.guild_voice_states guild_id)
  match resp with
  | .nil => pure []
  | _ => .error .redis

/-- The loop body of `Cache::get_voice_states`: a user listed in the guild
set whose own hash is missing is an error (`Error::None`, from the second
`?`). -/
def get_voice_states_go (s : Store) (guild_id : Nat) :
    List Nat → Except Err (List (Nat × CachedVoiceState))
  | [] => .ok []
  | id :: rest => do
    let st? ← get_voice_state s guild_id id
    match st? with
    | none => .error .noneE
    | some st => do
      let tail ← get_voice_states_go s guild_id rest
      pure ((id, st) :: tail)

/-- `Cache::get_voice_states`: enumerate the guild set, then read each user's
voice state. -/
def get_voice_states (s : Store) (guild_id : Nat) :
    Except Err (List (Nat × CachedVoiceState)) := do
  let user_ids ← get_voice_state_list s guild_id
  get_voice_states_go s guild_id user_ids

/-- `Cache::get_guild`: `HGETALL` the guild hash (empty → `Error::None`),
fetch the five membership sets with `SMEMBERS`, attach them as named array
fields onto the same flattened record, then materialize a `Guild`. -/
def get_guild (s : Store) (id : Nat) : Except Err GuildM := do
  let values ← hgetallCmd s (gen.guild id)
  if values.isEmpty then
    .error .noneE
  else do
    let channels ← smembersCmd s (gen.guild_channels id)
    let features ← smembersCmd s (gen.guild_features id)
    let members ← smembersCmd s (gen.guild_members id)
    let roles ← smembersCmd s (gen.guild_roles id)
    let voice_states ← smembersCmd s (gen.guild_voice_states id)
    let flat := values ++
      [.bulk "channels", channels, .bulk "features", features,
       .bulk "members", members, .bulk "roles", roles,
       .bulk "voice_states", voice_states]
    let m ← create_hashmap flat
    decodeGuild m

/-! ## Cache write operations (`src/cache.rs`) -/

/-- `Cache::delete_voice_state_atomic`. -/
def delete_voice_state_atomic (s : Store) (guild_id user_id : Nat) : Store :=
  del_sync s (gen.user_voice_state guild_id user_id)

/-- `Cache::delete_voice_state_list`. -/
def delete_voice_state_list (s : Store) (guild_id : Nat) : Store :=
  del_sync s (gen.guild_voice_states guild_id)

/-- `Cache::delete_voice_state`: fire-and-forget `DEL` of the per-user key,
then an awaited `SREM` on the guild set, then
`Ok(deleted.into_array().len() > 0)` — `into_array` on the integer `SREM`
reply. -/
def delete_voice_state (s : Store) (guild_id user_id : Nat) :
    Store × Except Err Bool :=
  let s1 := delete_voice_state_atomic s guild_id user_id
  match sremCmd s1 (gen.guild_voice_states guild_id) [natToDec user_id] with
  | (s2, .error e) => (s2, .error e)
  | (s2, .ok deleted) =>
    match into_array deleted with
    | .error e => (s2, .error e)
    | .ok arrv => (s2, .ok (decide (0 < arrv.length)))

/-- `Cache::delete_voice_states`:
`await!(self.get_voice_state_list(guild_id)).unwrap_or_default()` — an
enumeration failure is replaced by the empty list — then fire-and-forget
`DEL`s of each per-user key and of the set key, returning the count. -/
def delete_voice_states (s : Store) (guild_id : Nat) :
    Store × Except Err Nat :=
  let ids :=
    match get_voice_state_list s guild_id with
    | .ok ids => ids
    | .error _ => []
  let count := ids.length
  let s1 := ids.foldl (fun acc id => delete_voice_state_atomic acc guild_id id) s
  let s2 := delete_voice_state_list s1 guild_id
  (s2, .ok count)

/-- The `HMSET` field/value pairs `upsert_voice_state` writes when the new
state has a channel id. -/
def voiceFields (st : VoiceStateInput) (channel_id : Nat) :
    List (String × String) :=
  [("channel_id", natToDec channel_id),
   ("mute", boolStr st.mute),
   ("self_deaf", boolStr st.self_deaf),
   ("self_mute", boolStr st.self_mute),
   ("session_id", st.session_id),
   ("suppress", boolStr st.suppress)] ++
  (match st.token with
   | some t => [("token", t)]
   | none => [])

/-- `Cache::upsert_voice_state`.  It first awaits `get_voice_state` (so a
read or materialization failure aborts before any write).  With a present
channel id it deletes the `token` hash field when the input has no token,
writes the hash fields, removes the user from the old channel's set when the
channel changed, and adds the user to the new channel's set unless the
channel is unchanged.  With an absent channel id it removes the user from the
old channel's set (if any), removes the user from the guild's voice-state
set, and deletes the per-user key.  Note that the present-channel branch
issues no write at all to the guild's voice-state set. -/
def upsert_voice_state (s : Store) (guild_id : Nat) (st : VoiceStateInput) :
    Store × Except Err Unit :=
  match get_voice_state s guild_id st.user_id with
  | .error e => (s, .error e)
  | .ok old_state =>
    match st.channel_id with
    | some channel_id =>
      let s1 :=
        match st.token with
        | some _ => s
        | none => hdel_sync s (gen.user_voice_state guild_id st.user_id)
            ["token"]
      let s2 := hmset_sync s1 (gen.user_voice_state guild_id st.user_id)
        (voiceFields st channel_id)
      match old_state with
      | some oldSt =>
        if oldSt.channel_id ≠ channel_id then
          let s3 := srem_sync s2 (gen.channel_voice_states oldSt.channel_id)
            [natToDec st.user_id]
          (sadd_sync s3 (gen.channel_voice_states channel_id)
            [natToDec st.user_id], .ok ())
        else
          (s2, .ok ())
      | none =>
        (sadd_sync s2 (gen.channel_voice_states channel_id)
          [natToDec st.user_id], .ok ())
    | none =>
      let s1 :=
        match old_state with
        | some oldSt =>
          srem_sync s (gen.channel_voice_states oldSt.channel_id)
            [natToDec st.user_id]
        | none => s
      let s2 := srem_sync s1 (gen.guild_voice_states guild_id)
        [natToDec st.user_id]
      (del_sync s2 (gen.user_voice_state guild_id st.user_id), .ok ())

/-- `Cache::upsert_voice_state_info`: a single `HMSET` of the `endpoint` and
`token` fields of the per-user voice-state hash. -/
def upsert_voice_state_info (s : Store) (guild_id user_id : Nat)
    (endpoint token : String) : Store :=
  hmset_sync s (gen.user_voice_state guild_id user_id)
    [("endpoint", endpoint), ("token", token)]

/-! ## Guild upsert orchestrator (`src/cache.rs`) -/

def set_channel_voice_states (s : Store) (channel_id : Nat)
    (user_ids : List Nat) : Store :=
  let key := gen.channel_voice_states channel_id
  sadd_sync (del_sync s key) key (user_ids.map natToDec)

def set_guild_channels (s : Store) (guild_id : Nat)
    (channel_ids : List Nat) : Store :=
  let key := gen.guild_channels guild_id
  sadd_sync (del_sync s key) key (channel_ids.map natToDec)

def set_guild_features (s : Store) (guild_id : Nat)
    (features : List String) : Store :=
  let key := gen.guild_features guild_id
  sadd_sync (del_sync s key) key features

def set_guild_members (s : Store) (guild_id : Nat)
    (members : List Nat) : Store :=
  let key := gen.guild_members guild_id
  sadd_sync (del_sync s key) key (members.map natToDec)

def set_guild_roles (s : Store) (guild_id : Nat)
    (roles : List Nat) : Store :=
  let key := gen.guild_roles guild_id
  sadd_sync (del_sync s key) key (roles.map natToDec)

def set_guild_voice_states (s : Store) (guild_id : Nat)
    (voice_states : List Nat) : Store :=
  let key := gen.guild_voice_states guild_id
  sadd_sync (del_sync s key) key (voice_states.map natToDec)

def set_member_roles (s : Store) (guild_id user_id : Nat)
    (roles : List Nat) : Store :=
  let key := gen.member_roles guild_id user_id
  sadd_sync (del_sync s key) key (roles.map natToDec)

/-- `Cache::upsert_member`.  The member hash fields are `deaf`, `mute`,
`user_id`, then `joined_at` when present, then `nick` when present.  When the
nickname is absent the source issues `HDEL` of the field named
**`"afk_channel_id"`** (not `"nick"`) on the member hash, before the `HMSET`;
then the member's role set is replaced. -/
def upsert_member (s : Store) (m : MemberInput) : Store × Except Err Unit :=
  let guild_id := m.guild_id
  let user_id := m.user_id
  let fields :=
    [("deaf", boolStr m.deaf), ("mute", boolStr m.mute),
     ("user_id", natToDec user_id)] ++
    (match m.joined_at with
     | some j => [("joined_at", j)]
     | none => []) ++
    (match m.nick with
     | some n => [("nick", n)]
     | none => [])
  let s1 :=
    match m.nick with
    | some _ => s
    | none => hdel_sync s (gen.member guild_id user_id) ["afk_channel_id"]
  let s2 := hmset_sync s1 (gen.member guild_id user_id) fields
  (set_member_roles s2 guild_id user_id m.roles, .ok ())

/-- `Cache::upsert_role`. -/
def upsert_role (s : Store) (guild_id : Nat) (role : RoleInput) : Store :=
  hmset_sync s (gen.role guild_id role.id)
    [("colour", natToDec role.colour), ("name", role.name),
     ("permissions", natToDec role.permissions)]

/-- The grouping fold over `guild.voice_states.values()`: voice states with
an absent channel id are skipped, the rest are grouped by channel id. -/
def addToGroup (acc : List (Nat × List Nat)) (cid uid : Nat) :
    List (Nat × List Nat) :=
  match acc with
  | [] => [(cid, [uid])]
  | (c, us) :: t =>
    if c = cid then (c, us ++ [uid]) :: t else (c, us) :: addToGroup t cid uid

def groupChannelStates (vss : List VoiceStateInput) : List (Nat × List Nat) :=
  vss.foldl
    (fun acc st =>
      match st.channel_id with
      | none => acc
      | some cid => addToGroup acc cid st.user_id)
    []

/-- `Cache::upsert_guild`: the fan-out writer, in source order.  The final
loop of the source calls the `async fn upsert_voice_state` **without**
`await!`ing it: the futures are constructed and immediately dropped, so that
loop performs no store operation at all, and the store is unchanged by it. -/
def upsert_guild (s : Store) (g : GuildInput) : Store × Except Err Unit :=
  let gid := g.id
  let baseFields :=
    [("name", g.name), ("owner_id", natToDec g.owner_id),
     ("region", g.region)] ++
    (match g.afk_channel_id with
     | some a => [("afk_channel_id", natToDec a)]
     | none => [])
  let s := hmset_sync s (gen.guild gid) baseFields
  let s :=
    match g.afk_channel_id with
    | some _ => s
    | none => hdel_sync s (gen.guild gid) ["afk_channel_id"]
  let s := set_guild_channels s gid g.channels
  let s := set_guild_features s gid g.features
  let s := set_guild_members s gid (g.members.map (·.user_id))
  let s := g.members.foldl (fun acc m => (upsert_member acc m).1) s
  let s := set_guild_roles s gid (g.roles.map (·.id))
  let s := g.roles.foldl (fun acc r => upsert_role acc gid r) s
  let s := set_guild_voice_states s gid (g.voice_states.map (·.user_id))
  let s := (groupChannelStates g.voice_states).foldl
    (fun acc p => set_channel_voice_states acc p.1 p.2) s
  (s, .ok ())

/-! ## Observation helpers used by the claim statements -/

/-- The value of one field of a hash key (`none` when the key is absent, not
a hash, or lacks the field). -/
def hashField (s : Store) (k f : String) : Option String :=
  match s k with
  | some (.hash l) => lookupK l f
  | _ => none

/-- Set membership at a key (`false` when the key is absent or not a set). -/
def setMem (s : Store) (k x : String) : Bool :=
  match s k with
  | some (.rset l) => l.contains x
  | _ => false

/-- The string `deserialize_string_from_number` yields for a stored hash
value `sv`: `resp_to_value` turns `sv` into a number when it parses as `u64`,
and that number is rendered back to decimal. -/
def sessionCanon (sv : String) : String :=
  match parseU64 sv with
  | some n => natToDec n
  | none => sv

/-- The slot of key `k` cannot be changed by `SREM k vs`: either it is not a
set, or removing `vs` from it changes nothing and leaves it nonempty. -/
def sremStable (s : Store) (k : String) (vs : List String) : Prop :=
  ∀ l, s k = some (.rset l) → sremList l vs = l ∧ l ≠ []

/-! ## Concrete scenario data -/

/-- Scenario A input: user 5 joins channel 4 with session `"s1"`, no
token. -/
def stChannel4 : VoiceStateInput :=
  ⟨5, some 4, false, false, false, false, "s1", none⟩

/-- Scenario B input: user 5 moves to channel 7. -/
def stChannel7 : VoiceStateInput :=
  ⟨5, some 7, false, false, false, false, "s1", none⟩

/-- Scenario C input: user 5 leaves voice (absent channel id). -/
def stNoChannel : VoiceStateInput :=
  ⟨5, none, false, false, false, false, "s1", none⟩

/-- The store after scenario A from an empty store. -/
def storeA : Store := (upsert_voice_state emptyStore 1 stChannel4).1

/-- The store after scenario B continuing from `storeA`. -/
def storeB : Store := (upsert_voice_state storeA 1 stChannel7).1

/-- The store after scenario C continuing from `storeB`. -/
def storeC : Store := (upsert_voice_state storeB 1 stNoChannel).1

/-- A store in which user 5 has a voice state in guild 1: the guild's
voice-state set contains `"5"` and the per-user voice-state hash exists. -/
def storeVoice15 : Store := fun k =>
  if k = "g:1:v" then some (.rset ["5"])
  else if k = "g:1:v:5" then
    some (.hash [("channel_id", "4"), ("mute", "0"), ("self_deaf", "0"),
      ("self_mute", "0"), ("session_id", "s1"), ("suppress", "0")])
  else none

/-- A store in which user 5's voice-state hash in guild 1 carries a stale
`token` field. -/
def storeWithToken : Store := fun k =>
  if k = "g:1:v:5" then
    some (.hash [("channel_id", "4"), ("mute", "0"), ("self_deaf", "0"),
      ("self_mute", "0"), ("session_id", "s1"), ("suppress", "0"),
      ("token", "t0")])
  else none

/-- A store with stale guild-1 membership data: user 9 in the member and
voice-state sets and in channel 4's voice set. -/
def storePrior : Store := fun k =>
  if k = "g:1:m" then some (.rset ["9"])
  else if k = "g:1:v" then some (.rset ["9"])
  else if k = "ch:4:v" then some (.rset ["9"])
  else none

/-- Scenario D snapshot: guild 1 named `"n"`, owner 2, region `"r"`, no AFK
channel, members `‹5›`, sole voice state `‹user 5, channel 4›`. -/
def guildSnapshotD : GuildInput :=
  ⟨1, "n", 2, "r", none, [], [], [⟨1, 5, false, false, none, none, []⟩], [],
    [stChannel4]⟩

/-- The store after upserting scenario D's snapshot over `storePrior`. -/
def storeD : Store := (upsert_guild storePrior guildSnapshotD).1

/-- A member snapshot for guild 1, user 5, with an absent nickname and role
2. -/
def memberNoNick : MemberInput := ⟨1, 5, false, false, none, none, [2]⟩

/-- A store in which member (1,5) has a stored hash carrying a stale `nick`
field and a stale role set `‹3›`. -/
def storeMember : Store := fun k =>
  if k = "g:1:m:5" then
    some (.hash [("deaf", "0"), ("mute", "0"), ("user_id", "5"),
      ("nick", "old")])
  else if k = "g:1:m:5:r" then some (.rset ["3"])
  else none

/-- The store after upserting `memberNoNick` over `storeMember`. -/
def storeMemberAfter : Store := (upsert_member storeMember memberNoNick).1

/-! ## Decimal round trip -/

theorem digitVal_digitChar (d : Nat) (h : d < 10) :
    digitVal (digitChar d) = some d := by
  interval_cases d <;> decide

theorem parseDecAux_append (l1 l2 : List Char) (acc : Nat) :
    parseDecAux (l1 ++ l2) acc =
      match parseDecAux l1 acc with
      | some m => parseDecAux l2 m
      | none => none := by
  induction l1 generalizing acc with
  | nil => simp [parseDecAux]
  | cons c cs ih =>
    simp only [List.cons_append, parseDecAux]
    cases digitVal c with
    | none => simp
    | some d => simp [ih]

theorem natToDecAux_shift (fuel : Nat) :
    ∀ n acc, natToDecAux fuel n acc = natToDecAux fuel n [] ++ acc := by
  induction fuel with
  | zero => intro n acc; simp [natToDecAux]
  | succ fuel ih =>
    intro n acc
    match n with
    | 0 => simp [natToDecAux]
    | m + 1 =>
      have hl : natToDecAux (fuel + 1) (m + 1) acc
          = natToDecAux fuel ((m + 1) / 10) (digitChar ((m + 1) % 10) :: acc) :=
        rfl
      have hr : natToDecAux (fuel + 1) (m + 1) []
          = natToDecAux fuel ((m + 1) / 10) [digitChar ((m + 1) % 10)] := rfl
      rw [hl, hr, ih ((m + 1) / 10) (digitChar ((m + 1) % 10) :: acc),
        ih ((m + 1) / 10) [digitChar ((m + 1) % 10)]]
      simp

theorem parse_natToDecAux (n : Nat) : ∀ fuel, 0 < n → n ≤ fuel →
    parseDecAux (natToDecAux fuel n []) 0 = some n := by
  induction n using Nat.strong_induction_on with
  | _ n ih =>
    intro fuel hpos hle
    obtain ⟨m, rfl⟩ : ∃ m, n = m + 1 := ⟨n - 1, by omega⟩
    obtain ⟨f2, rfl⟩ : ∃ f2, fuel = f2 + 1 := ⟨fuel - 1, by omega⟩
    show parseDecAux (natToDecAux f2 ((m + 1) / 10)
      (digitChar ((m + 1) % 10) :: [])) 0 = some (m + 1)
    rw [natToDecAux_shift]
    rw [parseDecAux_append]
    have hdig : digitVal (digitChar ((m + 1) % 10)) = some ((m + 1) % 10) :=
      digitVal_digitChar _ (Nat.mod_lt _ (by omega))
    by_cases hq : (m + 1) / 10 = 0
    · rw [hq]
      have hnil : natToDecAux f2 0 [] = [] := by cases f2 <;> rfl
      rw [hnil]
      simp [parseDecAux, hdig]
      omega
    · have hlt : (m + 1) / 10 < m + 1 := Nat.div_lt_self (by omega) (by omega)
      have hle2 : (m + 1) / 10 ≤ f2 := by omega
      rw [ih ((m + 1) / 10) hlt f2 (Nat.pos_of_ne_zero hq) hle2]
      simp [parseDecAux, hdig]
      omega

theorem natToDecAux_ne_nil (fuel n : Nat) (hpos : 0 < n) (hle : n ≤ fuel) :
    natToDecAux fuel n [] ≠ [] := by
  obtain ⟨m, rfl⟩ : ∃ m, n = m + 1 := ⟨n - 1, by omega⟩
  obtain ⟨f2, rfl⟩ : ∃ f2, fuel = f2 + 1 := ⟨fuel - 1, by omega⟩
  show natToDecAux f2 ((m + 1) / 10) [digitChar ((m + 1) % 10)] ≠ []
  rw [natToDecAux_shift]
  simp

theorem parseU64_natToDec (n : Nat) (h : n < 2 ^ 64) :
    parseU64 (natToDec n) = some n := by
  by_cases h0 : n = 0
  · subst h0; decide
  · have hpos : 0 < n := Nat.pos_of_ne_zero h0
    have hne := natToDecAux_ne_nil n n hpos le_rfl
    have hparse := parse_natToDecAux n n hpos le_rfl
    have hstep : parseU64 (natToDec n) =
        match parseDecAux (natToDecAux n n []) 0 with
        | some m => if m < 2 ^ 64 then some m else none
        | none => none := by
      rw [natToDec, if_neg h0]
      match hd : natToDecAux n n [] with
      | [] => exact absurd hd hne
      | c :: cs => rfl
    rw [hstep, hparse]
    show (if n < 2 ^ 64 then some n else none) = some n
    exact if_pos h

theorem strToJ_natToDec (n : Nat) (h : n < 2 ^ 64) :
    strToJ (natToDec n) = .num (Int.ofNat n) := by
  simp [strToJ, parseU64_natToDec n h]

/-! ## Association list lemmas -/

theorem lookupK_setK {β : Type} (h : List (String × β)) (f f2 : String)
    (v : β) :
    lookupK (setK h f v) f2 = if f2 = f then some v else lookupK h f2 := by
  induction h with
  | nil =>
    by_cases hf : f2 = f
    · subst hf; simp [setK, lookupK]
    · simp [setK, lookupK, hf, Ne.symm hf]
  | cons p t ih =>
    obtain ⟨g, w⟩ := p
    by_cases hg : g = f
    · subst hg
      by_cases hf : f2 = g
      · subst hf; simp [setK, lookupK]
      · simp [setK, lookupK, hf, Ne.symm hf]
    · by_cases hgf2 : g = f2
      · subst hgf2
        simp [setK, lookupK, hg, Ne.symm hg]
      · simp [setK, lookupK, hg, hgf2, ih]

theorem mem_keys_setK {β : Type} (h : List (String × β)) (f : String) (v : β)
    (x : String) (hx : x ∈ (setK h f v).map Prod.fst) :
    x ∈ h.map Prod.fst ∨ x = f := by
  induction h with
  | nil =>
    simp [setK] at hx
    simp [hx]
  | cons p t ih =>
    obtain ⟨g, w⟩ := p
    by_cases hg : g = f
    · simp [setK, hg] at hx
      rcases hx with hx | hx
      · simp [hx]
      · simp [hx]
    · simp only [setK, hg, if_false, List.map_cons, List.mem_cons] at hx
      rcases hx with hx | hx
      · simp [hx]
      · rcases ih hx with h2 | h2
        · simp [h2]
        · simp [h2]

theorem lookupK_some_mem {β : Type} (t : List (String × β)) (f : String)
    (w : β) (hl : lookupK t f = some w) : f ∈ t.map Prod.fst := by
  induction t with
  | nil => simp [lookupK] at hl
  | cons q r ih =>
    obtain ⟨a, b⟩ := q
    by_cases hq : a = f
    · simp [← hq]
    · simp only [lookupK, if_neg hq] at hl
      simp [ih hl]

theorem nodup_keys_setK {β : Type} (h : List (String × β)) (f : String)
    (v : β) (hn : (h.map Prod.fst).Nodup) :
    ((setK h f v).map Prod.fst).Nodup := by
  induction h with
  | nil => simp [setK]
  | cons p t ih =>
    obtain ⟨g, w⟩ := p
    simp only [List.map_cons, List.nodup_cons] at hn
    by_cases hg : g = f
    · subst hg
      have hstep : setK ((g, w) :: t) g v = (g, v) :: t := by simp [setK]
      rw [hstep]
      simp only [List.map_cons, List.nodup_cons]
      exact hn
    · simp only [setK, hg, if_false, List.map_cons, List.nodup_cons]
      refine ⟨fun hmem => ?_, ih hn.2⟩
      rcases mem_keys_setK t f v g hmem with h2 | h2
      · exact hn.1 h2
      · exact hg h2

theorem nodup_keys_setKs {β : Type} (vs : List (String × β)) :
    ∀ h : List (String × β), (h.map Prod.fst).Nodup →
    ((setKs h vs).map Prod.fst).Nodup := by
  induction vs with
  | nil => intro h hn; simpa [setKs]
  | cons p t ih =>
    intro h hn
    show ((setKs (setK h p.1 p.2) t).map Prod.fst).Nodup
    exact ih _ (nodup_keys_setK h p.1 p.2 hn)

theorem lookupK_foldSetK {β γ : Type} (g : β → γ) (vs : List (String × β)) :
    ∀ (acc : List (String × γ)) (f : String), (vs.map Prod.fst).Nodup →
    lookupK (vs.foldl (fun a p => setK a p.1 (g p.2)) acc) f =
      match lookupK vs f with
      | some v => some (g v)
      | none => lookupK acc f := by
  induction vs with
  | nil => intro acc f _; simp [lookupK]
  | cons p t ih =>
    intro acc f hn
    obtain ⟨k, v⟩ := p
    simp only [List.map_cons, List.nodup_cons] at hn
    show lookupK (t.foldl (fun a p => setK a p.1 (g p.2)) (setK acc k (g v))) f
      = _
    rw [ih (setK acc k (g v)) f hn.2]
    match hline : lookupK t f with
    | some w =>
      have hkf : k ≠ f := by
        intro hkf
        subst hkf
        exact hn.1 (lookupK_some_mem t k w hline)
      show some (g w) = match lookupK ((k, v) :: t) f with
        | some v => some (g v)
        | none => lookupK acc f
      simp only [lookupK, if_neg hkf, hline]
    | none =>
      show lookupK (setK acc k (g v)) f = match lookupK ((k, v) :: t) f with
        | some v => some (g v)
        | none => lookupK acc f
      rw [lookupK_setK]
      by_cases hf : f = k
      · subst hf
        simp [lookupK]
      · simp only [lookupK, if_neg hf, if_neg (Ne.symm hf), hline]

theorem lookupK_setKs {β : Type} (h vs : List (String × β)) (f : String)
    (hn : (vs.map Prod.fst).Nodup) :
    lookupK (setKs h vs) f =
      match lookupK vs f with
      | some v => some v
      | none => lookupK h f := by
  have := lookupK_foldSetK (fun x : β => x) vs h f hn
  simpa [setKs] using this

theorem lookupK_of_mem_nodup {β : Type} (vs : List (String × β))
    (p : String × β) (hp : p ∈ vs) (hn : (vs.map Prod.fst).Nodup) :
    lookupK vs p.1 = some p.2 := by
  induction vs with
  | nil => simp at hp
  | cons q t ih =>
    simp only [List.map_cons, List.nodup_cons] at hn
    rcases List.mem_cons.mp hp with hq | hq
    · subst hq; simp [lookupK]
    · have hne : q.1 ≠ p.1 := by
        intro he
        exact hn.1 (he ▸ List.mem_map_of_mem Prod.fst hq)
      simp [lookupK, hne, ih hq hn.2]

theorem lookupK_none_not_mem {β : Type} (h : List (String × β)) (f : String)
    (hl : lookupK h f = none) : ∀ p ∈ h, p.1 ≠ f := by
  induction h with
  | nil => simp
  | cons q t ih =>
    simp only [lookupK] at hl
    by_cases hq : q.1 = f
    · rw [if_pos hq] at hl; exact absurd hl (by simp)
    · rw [if_neg hq] at hl
      intro p hp
      rcases List.mem_cons.mp hp with he | he
      · subst he; exact hq
      · exact ih hl p he

theorem lookupK_ne_nil {β : Type} (h : List (String × β)) (f : String)
    (v : β) (hl : lookupK h f = some v) : h ≠ [] := by
  intro he; subst he; simp [lookupK] at hl

theorem setK_of_lookup {β : Type} (h : List (String × β)) (f : String)
    (v : β) (hl : lookupK h f = some v) : setK h f v = h := by
  induction h with
  | nil => simp [lookupK] at hl
  | cons q t ih =>
    obtain ⟨g, w⟩ := q
    by_cases hg : g = f
    · simp only [lookupK, if_pos hg] at hl
      simp only [setK, if_pos hg]
      rw [← hg, Option.some_inj.mp hl]
    · simp only [lookupK, if_neg hg] at hl
      simp [setK, hg, ih hl]

theorem setKs_self {β : Type} (vs : List (String × β)) :
    ∀ h : List (String × β), (∀ p ∈ vs, lookupK h p.1 = some p.2) →
    setKs h vs = h := by
  induction vs with
  | nil => intro h _; rfl
  | cons p t ih =>
    intro h hall
    show setKs (setK h p.1 p.2) t = h
    rw [setK_of_lookup h p.1 p.2 (hall p (by simp))]
    exact ih h (fun q hq => hall q (by simp [hq]))

theorem lookupK_delKs {β : Type} (h : List (String × β)) (fs : List String)
    (f : String) :
    lookupK (delKs h fs) f =
      if f ∈ fs then none else lookupK h f := by
  induction h with
  | nil => simp [delKs, lookupK]
  | cons q t ih =>
    obtain ⟨g, w⟩ := q
    by_cases hmem : g ∈ fs
    · have hstep : delKs ((g, w) :: t) fs = delKs t fs := by
        simp [delKs, List.filter, hmem]
      rw [hstep, ih]
      by_cases hf : f ∈ fs
      · simp [hf]
      · have hgf : g ≠ f := fun he => hf (he ▸ hmem)
        simp [hf, lookupK, hgf]
    · have hstep : delKs ((g, w) :: t) fs = (g, w) :: delKs t fs := by
        simp [delKs, List.filter, hmem]
      rw [hstep]
      by_cases hgf : g = f
      · subst hgf
        simp [lookupK, hmem]
      · simp [lookupK, hgf, ih]

theorem nodup_keys_delKs {β : Type} (h : List (String × β))
    (fs : List String) (hn : (h.map Prod.fst).Nodup) :
    ((delKs h fs).map Prod.fst).Nodup :=
  ((List.filter_sublist h).map Prod.fst).nodup hn

theorem delKs_of_lookup_none {β : Type} (h : List (String × β)) (f : String)
    (hl : lookupK h f = none) : delKs h [f] = h := by
  apply List.filter_eq_self.mpr
  intro p hp
  have := lookupK_none_not_mem h f hl p hp
  simp [this]

/-! ## Store operation lemmas -/

theorem upd_apply_self (s : Store) (k : String) (v : Option RVal) :
    s.upd k v k = v := by simp [Store.upd]

theorem upd_apply_ne (s : Store) (k k2 : String) (v : Option RVal)
    (h : k2 ≠ k) : s.upd k v k2 = s k2 := by simp [Store.upd, h]

theorem del_sync_apply_ne (s : Store) (k k2 : String) (h : k2 ≠ k) :
    del_sync s k k2 = s k2 := upd_apply_ne s k k2 none h

theorem del_sync_apply_self (s : Store) (k : String) :
    del_sync s k k = none := upd_apply_self s k none

theorem del_sync_noop (s : Store) (k : String) (h : s k = none) :
    del_sync s k = s := by
  funext k2
  by_cases hk : k2 = k
  · subst hk; simp [del_sync, Store.upd, h]
  · simp [del_sync, Store.upd, hk]

theorem sadd_sync_apply_ne (s : Store) (k : String) (vs : List String)
    (k2 : String) (h : k2 ≠ k) : sadd_sync s k vs k2 = s k2 := by
  unfold sadd_sync
  by_cases he : vs.isEmpty = true
  · simp [he]
  · simp only [he, if_false]
    cases hsk : s k with
    | none => simp [Store.upd, h]
    | some v =>
      cases v with
      | str a => rfl
      | hash l => rfl
      | rset l => simp [Store.upd, h]

theorem srem_sync_apply_ne (s : Store) (k : String) (vs : List String)
    (k2 : String) (h : k2 ≠ k) : srem_sync s k vs k2 = s k2 := by
  unfold srem_sync
  cases hsk : s k with
  | none => rfl
  | some v =>
    cases v with
    | str a => rfl
    | hash l => rfl
    | rset l =>
      by_cases hie : (sremList l vs).isEmpty = true
      · simp [hie, Store.upd, h]
      · simp [hie, Store.upd, h]

theorem hmset_sync_apply_ne (s : Store) (k : String)
    (vs : List (String × String)) (k2 : String) (h : k2 ≠ k) :
    hmset_sync s k vs k2 = s k2 := by
  unfold hmset_sync
  cases hsk : s k with
  | none => simp [Store.upd, h]
  | some v =>
    cases v with
    | str a => rfl
    | hash l => simp [Store.upd, h]
    | rset l => rfl

theorem hdel_sync_apply_ne (s : Store) (k : String) (fs : List String)
    (k2 : String) (h : k2 ≠ k) : hdel_sync s k fs k2 = s k2 := by
  unfold hdel_sync
  cases hsk : s k with
  | none => rfl
  | some v =>
    cases v with
    | str a => rfl
    | hash l =>
      by_cases hie : (delKs l fs).isEmpty = true
      · simp [hie, Store.upd, h]
      · simp [hie, Store.upd, h]
    | rset l => rfl

theorem srem_sync_noop (s : Store) (k : String) (vs : List String)
    (h : sremStable s k vs) : srem_sync s k vs = s := by
  unfold srem_sync
  cases hsk : s k with
  | none => rfl
  | some v =>
    cases v with
    | str a => rfl
    | hash l => rfl
    | rset l =>
      obtain ⟨h1, h2⟩ := h l hsk
      show (if (sremList l vs).isEmpty then s.upd k none
        else s.upd k (some (.rset (sremList l vs)))) = s
      rw [h1, if_neg (by simpa using h2)]
      funext k2
      by_cases hk : k2 = k
      · subst hk; simp [Store.upd, hsk]
      · simp [Store.upd, hk]

theorem sremStable_after (s : Store) (k : String) (vs : List String) :
    sremStable (srem_sync s k vs) k vs := by
  intro l hl
  cases hsk : s k with
  | none =>
    rw [show srem_sync s k vs = s from by unfold srem_sync; rw [hsk]] at hl
    rw [hsk] at hl
    exact absurd hl (by simp)
  | some v =>
    cases v with
    | str a =>
      rw [show srem_sync s k vs = s from by unfold srem_sync; rw [hsk]] at hl
      rw [hsk] at hl
      exact absurd hl (by simp)
    | hash l0 =>
      rw [show srem_sync s k vs = s from by unfold srem_sync; rw [hsk]] at hl
      rw [hsk] at hl
      exact absurd hl (by simp)
    | rset l0 =>
      have hstep : srem_sync s k vs =
          if (sremList l0 vs).isEmpty then s.upd k none
          else s.upd k (some (.rset (sremList l0 vs))) := by
        unfold srem_sync
        rw [hsk]
      rw [hstep] at hl
      by_cases hie : (sremList l0 vs).isEmpty = true
      · rw [if_pos hie, upd_apply_self] at hl
        exact absurd hl (by simp)
      · rw [if_neg hie, upd_apply_self] at hl
        have hle : sremList l0 vs = l := by
          have := Option.some_inj.mp hl
          injection this
        constructor
        · rw [← hle]
          simp [sremList, List.filter_filter]
        · intro he
          rw [← hle] at he
          rw [he] at hie
          simp at hie

theorem sremStable_upd_ne (s : Store) (k k2 : String) (v : Option RVal)
    (vs : List String) (h : sremStable s k vs) (hne : k ≠ k2) :
    sremStable (s.upd k2 v) k vs := by
  intro l hl
  rw [upd_apply_ne s k2 k v hne] at hl
  exact h l hl

theorem hdel_sync_noop (s : Store) (k : String) (fs : List String)
    (h : ∀ l, s k = some (.hash l) → delKs l fs = l ∧ l ≠ []) :
    hdel_sync s k fs = s := by
  unfold hdel_sync
  cases hsk : s k with
  | none => rfl
  | some v =>
    cases v with
    | str a => rfl
    | rset l => rfl
    | hash l =>
      obtain ⟨h1, h2⟩ := h l hsk
      show (if (delKs l fs).isEmpty then s.upd k none
        else s.upd k (some (.hash (delKs l fs)))) = s
      rw [h1, if_neg (by simpa using h2)]
      funext k2
      by_cases hk : k2 = k
      · subst hk; simp [Store.upd, hsk]
      · simp [Store.upd, hk]

theorem hmset_sync_apply_self_none (s : Store) (k : String)
    (vs : List (String × String)) (h : s k = none) :
    hmset_sync s k vs k = some (.hash (setKs [] vs)) := by
  unfold hmset_sync
  rw [h]
  exact upd_apply_self s k _

theorem hmset_sync_apply_self_hash (s : Store) (k : String)
    (vs : List (String × String)) (l : List (String × String))
    (h : s k = some (.hash l)) :
    hmset_sync s k vs k = some (.hash (setKs l vs)) := by
  unfold hmset_sync
  rw [h]
  exact upd_apply_self s k _

theorem hmset_sync_noop (s : Store) (k : String)
    (vs : List (String × String)) (l : List (String × String))
    (h : s k = some (.hash l)) (hall : ∀ p ∈ vs, lookupK l p.1 = some p.2) :
    hmset_sync s k vs = s := by
  unfold hmset_sync
  rw [h]
  show s.upd k (some (.hash (setKs l vs))) = s
  rw [setKs_self vs l hall]
  funext k2
  by_cases hk : k2 = k
  · subst hk; simp [Store.upd, h]
  · simp [Store.upd, hk]

/-! ## Key disjointness -/

theorem natToDec_length_pos (n : Nat) : 0 < (natToDec n).length := by
  by_cases h : n = 0
  · subst h; decide
  · have hne := natToDecAux_ne_nil n n (Nat.pos_of_ne_zero h) le_rfl
    rw [natToDec, if_neg h]
    show 0 < (natToDecAux n n []).length
    cases hd : natToDecAux n n [] with
    | nil => exact absurd hd hne
    | cons c cs => simp

theorem guild_vs_key_ne_user_key (g u : Nat) :
    gen.guild_voice_states g ≠ gen.user_voice_state g u := by
  intro h
  have hlen := congrArg String.length h
  simp only [gen.guild_voice_states, gen.user_voice_state,
    String.length_append] at hlen
  have h1 := natToDec_length_pos u
  have e1 : ("g:" : String).length = 2 := rfl
  have e2 : (":v" : String).length = 2 := rfl
  have e3 : (":v:" : String).length = 3 := rfl
  rw [e1, e2, e3] at hlen
  omega

theorem ch_prefix_ne_g_prefix (a b : String) : "ch:" ++ a ≠ "g:" ++ b := by
  intro h
  have hd := congrArg String.data h
  rw [String.data_append, String.data_append] at hd
  have h1 : ("ch:" : String).data = ['c', 'h', ':'] := rfl
  have h2 : ("g:" : String).data = ['g', ':'] := rfl
  rw [h1, h2] at hd
  simp at hd

theorem channel_key_ne_user_key (c g u : Nat) :
    gen.channel_voice_states c ≠ gen.user_voice_state g u := by
  intro h
  simp only [gen.channel_voice_states, gen.user_voice_state,
    String.append_assoc] at h
  exact ch_prefix_ne_g_prefix _ _ h

theorem channel_key_ne_guild_vs_key (c g : Nat) :
    gen.channel_voice_states c ≠ gen.guild_voice_states g := by
  intro h
  simp only [gen.channel_voice_states, gen.guild_voice_states,
    String.append_assoc] at h
  exact ch_prefix_ne_g_prefix _ _ h

/-! ## Materializer lemmas -/

theorem except_bind_ok {ε α β : Type} (a : α) (f : α → Except ε β) :
    (Except.ok a >>= f) = f a := rfl

theorem except_bind_error {ε α β : Type} (e : ε) (f : α → Except ε β) :
    ((Except.error e : Except ε α) >>= f) = .error e := rfl

theorem get_voice_state_absent (s : Store) (g u : Nat)
    (h : s (gen.user_voice_state g u) = none) :
    get_voice_state s g u = .ok none := by
  unfold get_voice_state
  have hh : hgetallCmd s (gen.user_voice_state g u) = .ok [] := by
    unfold hgetallCmd
    rw [h]
  rw [hh, except_bind_ok]
  rfl

theorem get_voice_state_ok_shape (s : Store) (g u : Nat)
    (o : Option CachedVoiceState) (h : get_voice_state s g u = .ok o) :
    s (gen.user_voice_state g u) = none ∨
      ∃ H, s (gen.user_voice_state g u) = some (.hash H) := by
  cases hsk : s (gen.user_voice_state g u) with
  | none => exact Or.inl rfl
  | some v =>
    cases v with
    | hash l => exact Or.inr ⟨l, rfl⟩
    | str a =>
      exfalso
      unfold get_voice_state at h
      have hh : hgetallCmd s (gen.user_voice_state g u) = .error .redis := by
        unfold hgetallCmd
        rw [hsk]
      rw [hh, except_bind_error] at h
      exact Except.noConfusion h
    | rset l =>
      exfalso
      unfold get_voice_state at h
      have hh : hgetallCmd s (gen.user_voice_state g u) = .error .redis := by
        unfold hgetallCmd
        rw [hsk]
      rw [hh, except_bind_error] at h
      exact Except.noConfusion h

theorem create_hashmap_flatten (H : List (String × String)) :
    create_hashmap (flattenHash H) =
      .ok (H.foldl (fun a p => setK a p.1 (strToJ p.2)) []) := by
  unfold create_hashmap
  have hgen : ∀ acc, create_hashmap_go acc (flattenHash H) =
      .ok (H.foldl (fun a p => setK a p.1 (strToJ p.2)) acc) := by
    induction H with
    | nil => intro acc; rfl
    | cons p t ih =>
      intro acc
      obtain ⟨f, v⟩ := p
      show create_hashmap_go acc (.bulk f :: .bulk v :: flattenHash t) = _
      rw [show create_hashmap_go acc (.bulk f :: .bulk v :: flattenHash t)
        = create_hashmap_go (setK acc f (strToJ v)) (flattenHash t) from rfl]
      rw [ih (setK acc f (strToJ v))]
      rfl
  exact hgen []

theorem lookupK_jmap (H : List (String × String)) (f : String)
    (hnd : (H.map Prod.fst).Nodup) :
    lookupK (H.foldl (fun a p => setK a p.1 (strToJ p.2)) []) f =
      (lookupK H f).map strToJ := by
  rw [lookupK_foldSetK strToJ H [] f hnd]
  cases lookupK H f <;> rfl

theorem numberFromString_ofNat (c : Nat) (hc : c < 2 ^ 64) :
    numberFromString (.num (Int.ofNat c)) = .ok c := by
  have hc2 : (Int.ofNat c) < 2 ^ 64 := by
    rw [Int.ofNat_eq_coe]
    exact_mod_cast hc
  rw [show numberFromString (.num (Int.ofNat c))
    = (if 0 ≤ (Int.ofNat c) ∧ (Int.ofNat c) < 2 ^ 64 then
      Except.ok (Int.ofNat c).toNat else Except.error Err.redis) from rfl]
  rw [if_pos ⟨Int.ofNat_nonneg c, hc2⟩]
  simp

theorem stringFromNumber_strToJ (sv : String) :
    stringFromNumber (strToJ sv) = .ok (sessionCanon sv) := by
  unfold strToJ sessionCanon
  cases hp : parseU64 sv with
  | none => rfl
  | some n =>
    show (Except.ok (if (Int.ofNat n) < 0 then "-" ++ natToDec (-(Int.ofNat n)).toNat
      else natToDec (Int.ofNat n).toNat) : Except Err String) = .ok (natToDec n)
    rw [if_neg (by simp)]
    simp

theorem flattenHash_isEmpty_false (H : List (String × String)) (h : H ≠ []) :
    (flattenHash H).isEmpty = false := by
  cases H with
  | nil => exact absurd rfl h
  | cons p t => rfl

theorem get_voice_state_of_hash (s : Store) (g u : Nat)
    (H : List (String × String))
    (hk : s (gen.user_voice_state g u) = some (.hash H))
    (hnd : (H.map Prod.fst).Nodup) (hne : H ≠ [])
    (c : Nat) (hc : c < 2 ^ 64)
    (hcv : lookupK H "channel_id" = some (natToDec c))
    (sv : String) (hsv : lookupK H "session_id" = some sv) :
    get_voice_state s g u = .ok (some ⟨c, sessionCanon sv⟩) := by
  unfold get_voice_state
  have hh : hgetallCmd s (gen.user_voice_state g u) = .ok (flattenHash H) := by
    unfold hgetallCmd
    rw [hk]
  rw [hh, except_bind_ok]
  rw [if_neg (by simp [flattenHash_isEmpty_false H hne])]
  have hreq1 : jreq (H.foldl (fun a p => setK a p.1 (strToJ p.2)) [])
      "channel_id" = .ok (.num (Int.ofNat c)) := by
    unfold jreq
    rw [lookupK_jmap H "channel_id" hnd, hcv]
    simp [strToJ_natToDec c hc]
  have hreq2 : jreq (H.foldl (fun a p => setK a p.1 (strToJ p.2)) [])
      "session_id" = .ok (strToJ sv) := by
    unfold jreq
    rw [lookupK_jmap H "session_id" hnd, hsv]
    rfl
  show Except.map some
    (create_hashmap (flattenHash H) >>= decodeVoiceState) = _
  rw [create_hashmap_flatten H, except_bind_ok]
  unfold decodeVoiceState
  rw [hreq1, except_bind_ok, numberFromString_ofNat c hc, except_bind_ok,
    hreq2, except_bind_ok, stringFromNumber_strToJ sv, except_bind_ok]
  rfl

/-! ## Lemmas for idempotence of `upsert_voice_state` -/

theorem lookupK_setKs_of_mem {β : Type} (B vs : List (String × β))
    (p : String × β) (hp : p ∈ vs) (hn : (vs.map Prod.fst).Nodup) :
    lookupK (setKs B vs) p.1 = some p.2 := by
  rw [lookupK_setKs B vs p.1 hn, lookupK_of_mem_nodup vs p hp hn]

theorem voiceFields_keys_nodup (st : VoiceStateInput) (cid : Nat) :
    ((voiceFields st cid).map Prod.fst).Nodup := by
  unfold voiceFields
  cases st.token <;> simp

theorem voiceFields_mem_channel (st : VoiceStateInput) (cid : Nat) :
    ("channel_id", natToDec cid) ∈ voiceFields st cid := by
  unfold voiceFields
  cases st.token <;> simp

theorem voiceFields_mem_session (st : VoiceStateInput) (cid : Nat) :
    ("session_id", st.session_id) ∈ voiceFields st cid := by
  unfold voiceFields
  cases st.token <;> simp

theorem voiceFields_token_none (st : VoiceStateInput) (cid : Nat)
    (h : st.token = none) :
    lookupK (voiceFields st cid) "token" = none := by
  unfold voiceFields
  rw [h]
  rfl

/-- After `HDEL token` and `HMSET` of the voice fields, the user's key holds
a hash of the form `setKs B (voiceFields st cid)` for some duplicate-free,
token-free base `B`. -/
theorem hmset_after_hdel_key (s : Store) (key : String)
    (vs : List (String × String))
    (hshape : s key = none ∨ ∃ H, s key = some (.hash H))
    (hnd : ∀ H, s key = some (.hash H) → (H.map Prod.fst).Nodup) :
    ∃ B, (B.map Prod.fst).Nodup ∧ lookupK B "token" = none ∧
      hmset_sync (hdel_sync s key ["token"]) key vs key
        = some (.hash (setKs B vs)) := by
  rcases hshape with hnone | ⟨H, hhash⟩
  · refine ⟨[], by simp, rfl, ?_⟩
    have hdel : hdel_sync s key ["token"] = s := by
      unfold hdel_sync
      rw [hnone]
    rw [hdel]
    exact hmset_sync_apply_self_none s key vs hnone
  · by_cases hie : (delKs H ["token"]).isEmpty = true
    · refine ⟨[], by simp, rfl, ?_⟩
      have hdel : hdel_sync s key ["token"] = s.upd key none := by
        unfold hdel_sync
        rw [hhash]
        show (if (delKs H ["token"]).isEmpty = true then s.upd key none
          else s.upd key (some (.hash (delKs H ["token"])))) = s.upd key none
        rw [if_pos hie]
      rw [hdel]
      exact hmset_sync_apply_self_none _ key vs (upd_apply_self s key none)
    · refine ⟨delKs H ["token"],
        nodup_keys_delKs H ["token"] (hnd H hhash), ?_, ?_⟩
      · rw [lookupK_delKs]
        simp
      · have hdel : hdel_sync s key ["token"]
            = s.upd key (some (.hash (delKs H ["token"]))) := by
          unfold hdel_sync
          rw [hhash]
          show (if (delKs H ["token"]).isEmpty = true then s.upd key none
            else s.upd key (some (.hash (delKs H ["token"]))))
            = s.upd key (some (.hash (delKs H ["token"])))
          rw [if_neg hie]
        rw [hdel]
        exact hmset_sync_apply_self_hash _ key vs _ (upd_apply_self s key _)

/-- `HMSET` of the voice fields without a preceding `HDEL` (the
token-present path). -/
theorem hmset_key_shape (s : Store) (key : String)
    (vs : List (String × String))
    (hshape : s key = none ∨ ∃ H, s key = some (.hash H))
    (hnd : ∀ H, s key = some (.hash H) → (H.map Prod.fst).Nodup) :
    ∃ B, (B.map Prod.fst).Nodup ∧
      hmset_sync s key vs key = some (.hash (setKs B vs)) := by
  rcases hshape with hnone | ⟨H, hhash⟩
  · exact ⟨[], by simp, hmset_sync_apply_self_none s key vs hnone⟩
  · exact ⟨H, hnd H hhash, hmset_sync_apply_self_hash s key vs H hhash⟩

/-- The heart of idempotence: on a store whose user voice-state key already
holds exactly the hash the transition writes (over a duplicate-free base,
token-free when the input has no token), `upsert_voice_state` with a present
channel id changes nothing and succeeds. -/
theorem upsert_present_second (s2 : Store) (g : Nat) (st : VoiceStateInput)
    (cid : Nat) (hco : st.channel_id = some cid) (hcid : cid < 2 ^ 64)
    (B : List (String × String)) (hBnd : (B.map Prod.fst).Nodup)
    (hBtok : st.token = none → lookupK B "token" = none)
    (hkey : s2 (gen.user_voice_state g st.user_id)
      = some (.hash (setKs B (voiceFields st cid)))) :
    upsert_voice_state s2 g st = (s2, .ok ()) := by
  have hvnd := voiceFields_keys_nodup st cid
  have hnodup : ((setKs B (voiceFields st cid)).map Prod.fst).Nodup :=
    nodup_keys_setKs (voiceFields st cid) B hBnd
  have hch : lookupK (setKs B (voiceFields st cid)) "channel_id"
      = some (natToDec cid) :=
    lookupK_setKs_of_mem B _ _ (voiceFields_mem_channel st cid) hvnd
  have hsv : lookupK (setKs B (voiceFields st cid)) "session_id"
      = some st.session_id :=
    lookupK_setKs_of_mem B _ _ (voiceFields_mem_session st cid) hvnd
  have hne : setKs B (voiceFields st cid) ≠ [] :=
    lookupK_ne_nil _ _ _ hch
  have hget2 : get_voice_state s2 g st.user_id
      = .ok (some ⟨cid, sessionCanon st.session_id⟩) :=
    get_voice_state_of_hash s2 g st.user_id _ hkey hnodup hne cid hcid hch
      st.session_id hsv
  have hall : ∀ p ∈ voiceFields st cid,
      lookupK (setKs B (voiceFields st cid)) p.1 = some p.2 :=
    fun p hp => lookupK_setKs_of_mem B _ p hp hvnd
  have hmsetNoop : hmset_sync s2 (gen.user_voice_state g st.user_id)
      (voiceFields st cid) = s2 :=
    hmset_sync_noop s2 _ _ _ hkey hall
  cases htok : st.token with
  | some t =>
    have hstep : upsert_voice_state s2 g st
        = (hmset_sync s2 (gen.user_voice_state g st.user_id)
            (voiceFields st cid), .ok ()) := by
      unfold upsert_voice_state
      rw [hget2, hco, htok]
      show (if cid ≠ cid then _ else _) = _
      rw [if_neg (by simp)]
    rw [hstep, hmsetNoop]
  | none =>
    have htokNone : lookupK (setKs B (voiceFields st cid)) "token" = none := by
      rw [lookupK_setKs B _ _ hvnd, voiceFields_token_none st cid htok]
      exact hBtok htok
    have hdelNoop : hdel_sync s2 (gen.user_voice_state g st.user_id)
        ["token"] = s2 := by
      apply hdel_sync_noop
      intro l hl
      rw [hkey] at hl
      have hlv : setKs B (voiceFields st cid) = l := by
        injection Option.some_inj.mp hl
      constructor
      · rw [← hlv]
        exact delKs_of_lookup_none _ _ htokNone
      · rw [← hlv]
        exact hne
    have hstep : upsert_voice_state s2 g st
        = (hmset_sync (hdel_sync s2 (gen.user_voice_state g st.user_id)
            ["token"]) (gen.user_voice_state g st.user_id)
            (voiceFields st cid), .ok ()) := by
      unfold upsert_voice_state
      rw [hget2, hco, htok]
      show (if cid ≠ cid then _ else _) = _
      rw [if_neg (by simp)]
    rw [hstep, hdelNoop, hmsetNoop]

/-- The second run of an absent-channel transition: the per-user key is
already gone and the guild set already purged, so the repeated `SREM` and
`DEL` change nothing. -/
theorem upsert_none_second (s1 : Store) (g : Nat) (st : VoiceStateInput)
    (hco : st.channel_id = none) :
    upsert_voice_state
      (del_sync (srem_sync s1 (gen.guild_voice_states g)
        [natToDec st.user_id]) (gen.user_voice_state g st.user_id)) g st
      = (del_sync (srem_sync s1 (gen.guild_voice_states g)
          [natToDec st.user_id]) (gen.user_voice_state g st.user_id),
        .ok ()) := by
  set X := del_sync (srem_sync s1 (gen.guild_voice_states g)
    [natToDec st.user_id]) (gen.user_voice_state g st.user_id) with hX
  have hkey : X (gen.user_voice_state g st.user_id) = none := by
    rw [hX]
    exact del_sync_apply_self _ _
  have hget2 : get_voice_state X g st.user_id = .ok none :=
    get_voice_state_absent X g st.user_id hkey
  have hstable : sremStable X (gen.guild_voice_states g)
      [natToDec st.user_id] := by
    intro l hl
    rw [hX, del_sync_apply_ne _ _ _
      (guild_vs_key_ne_user_key g st.user_id)] at hl
    exact sremStable_after s1 _ _ l hl
  have hstep : upsert_voice_state X g st
      = (del_sync (srem_sync X (gen.guild_voice_states g)
          [natToDec st.user_id]) (gen.user_voice_state g st.user_id),
        .ok ()) := by
    unfold upsert_voice_state
    rw [hget2, hco]
  rw [hstep, srem_sync_noop X _ _ hstable, del_sync_noop X _ hkey]

/-! ## Claims -/

/-- C1.  The claim says that after `upsert_voice_state` calls for one user
across channels 4, then 7, then none, the channel-scoped sets and the guild's
voice-state set match the last-written channel id, and in particular that the
user is a member of the guild's voice-state set whenever the last call had a
present channel id.  Evaluating the code on the claimed sequence from an
empty store: the voice-state key and the channel sets behave as claimed, but
the user is **never** added to the guild's voice-state set `g:1:v` — the
present-channel branch of `upsert_voice_state` issues no `SADD` on that key,
so `g:1:v` stays absent after calls 1 and 2, contradicting the claim (and
invariant I1). -/
theorem C1_guild_set_never_added :
    ((upsert_voice_state emptyStore 1 stChannel4).2 = .ok () ∧
     (storeA "g:1:v:5").isSome = true ∧
     setMem storeA "ch:4:v" "5" = true ∧
     storeA "g:1:v" = none) ∧
    ((upsert_voice_state storeA 1 stChannel7).2 = .ok () ∧
     (storeB "g:1:v:5").isSome = true ∧
     setMem storeB "ch:4:v" "5" = false ∧
     setMem storeB "ch:7:v" "5" = true ∧
     storeB "g:1:v" = none) ∧
    ((upsert_voice_state storeB 1 stNoChannel).2 = .ok () ∧
     storeC "g:1:v:5" = none ∧
     setMem storeC "ch:7:v" "5" = false ∧
     setMem storeC "g:1:v" "5" = false) :=
  ⟨⟨rfl, rfl, rfl, rfl⟩, ⟨rfl, rfl, rfl, rfl, rfl⟩, ⟨rfl, rfl, rfl, rfl⟩⟩

/-- C2.  The claim says `delete_voice_state` returns `Ok(true)` iff the
guild-set removal changed membership and `Ok(false)` otherwise.  On a store
where user 5 does have a voice state in guild 1, the code instead panics:
the awaited `SREM` replies with an integer, and
`RespValueExt::into_array` hits `unreachable!` on it, so the function never
reaches its `Ok` path. -/
theorem C2_delete_voice_state_panics :
    setMem storeVoice15 "g:1:v" "5" = true ∧
    (storeVoice15 "g:1:v:5").isSome = true ∧
    (delete_voice_state storeVoice15 1 5).2 = .error .panicked :=
  ⟨rfl, rfl, rfl⟩

/-- C3.  The claim says `delete_voice_states(guild)` returns exactly the
number of users in the guild's voice-state set and deletes every per-user
voice-state key.  On a store where the set `g:1:v` holds user 5, the
enumeration (`get_voice_state_list`) issues `GET` on the set key and fails
with `WRONGTYPE`; `delete_voice_states` swallows that failure via
`unwrap_or_default`, returns `Ok(0)` instead of `Ok(1)`, deletes no per-user
key (`g:1:v:5` survives), and still deletes the set key itself. -/
theorem C3_delete_voice_states_eval :
    setMem storeVoice15 "g:1:v" "5" = true ∧
    (storeVoice15 "g:1:v:5").isSome = true ∧
    (delete_voice_states storeVoice15 1).2 = .ok 0 ∧
    ((delete_voice_states storeVoice15 1).1 "g:1:v:5").isSome = true ∧
    (delete_voice_states storeVoice15 1).1 "g:1:v" = none :=
  ⟨rfl, rfl, rfl, rfl, rfl⟩

/-- C4.  Upserting via the orchestrator a guild snapshot with members `‹5›`
and sole voice state `‹user 5, channel 4›` over a store holding stale
entries for user 9, then reading the guild back through the materializer,
yields a `Guild` whose `members` set is exactly `‹5›` and whose
`voice_states` set is exactly `‹5›`; `ch:4:v` contains 5; and no stale entry
(user 9) survives in any replaced membership set. -/
theorem C4_guild_snapshot_roundtrip :
    get_guild storeD 1 = .ok ⟨none, [], [], [5], "n", 2, "r", [], [5]⟩ ∧
    setMem storeD "ch:4:v" "5" = true ∧
    setMem storeD "ch:4:v" "9" = false ∧
    setMem storeD "g:1:m" "5" = true ∧
    setMem storeD "g:1:m" "9" = false ∧
    setMem storeD "g:1:v" "9" = false ∧
    setMem storeD "g:1:v" "5" = true :=
  ⟨rfl, rfl, rfl, rfl, rfl, rfl, rfl⟩

/-- C5.  From an empty store, `upsert_voice_state(guild 1, user 5,
channel 4, session "s1", token absent)` succeeds, and `get_voice_state(1,5)`
materializes `Ok(Some(state))` with channel id 4 and session id `"s1"`; the
`token` hash field is absent.  Additionally, when the stored hash carried a
stale `token` field, the tokenless upsert explicitly deletes it rather than
writing an empty value. -/
theorem C5_scenario_a :
    (upsert_voice_state emptyStore 1 stChannel4).2 = .ok () ∧
    get_voice_state storeA 1 5 = .ok (some ⟨4, "s1"⟩) ∧
    hashField storeA "g:1:v:5" "token" = none ∧
    hashField ((upsert_voice_state storeWithToken 1 stChannel4).1)
      "g:1:v:5" "token" = none :=
  ⟨rfl, rfl, rfl, rfl⟩

/-- C6.  The claim says that for a member with an absent nickname the
nickname field (and only that field) is explicitly deleted from the member's
hash.  Evaluating `upsert_member` for member (1,5) with `nick = None` over a
store whose member hash carries a stale `nick = "old"`: the written fields
and the role-set replacement behave as claimed, but the code issues `HDEL`
of the field named `afk_channel_id` instead of `nick`, so the stale nickname
survives. -/
theorem C6_member_nick_not_deleted :
    (upsert_member storeMember memberNoNick).2 = .ok () ∧
    hashField storeMemberAfter "g:1:m:5" "deaf" = some "0" ∧
    hashField storeMemberAfter "g:1:m:5" "mute" = some "0" ∧
    hashField storeMemberAfter "g:1:m:5" "user_id" = some "5" ∧
    setMem storeMemberAfter "g:1:m:5:r" "2" = true ∧
    setMem storeMemberAfter "g:1:m:5:r" "3" = false ∧
    hashField storeMemberAfter "g:1:m:5" "nick" = some "old" :=
  ⟨rfl, rfl, rfl, rfl, rfl, rfl, rfl⟩

/-- C7 counterexample.  The claim says every store failure arising inside an
awaited read or delete — in particular the enumeration of the guild's
voice-state set inside `delete_voice_states` — is surfaced to the caller.
On `storeVoice15` the enumeration fails (`GET` on a set key is `WRONGTYPE`),
yet `delete_voice_states` returns `Ok(0)`: the failure is replaced by the
default empty list, not surfaced. -/
theorem C7_counterexample :
    get_voice_state_list storeVoice15 1 = .error .redis ∧
    (delete_voice_states storeVoice15 1).2 = .ok 0 :=
  ⟨rfl, rfl⟩

/-- C7 (amended).  A failure of the guild-set enumeration is surfaced by the
awaited read path (`get_voice_states` propagates the error), but
`delete_voice_states` swallows it via `unwrap_or_default`, proceeding as if
the set were empty and returning `Ok(0)`. -/
theorem C7_propagation (s : Store) (g : Nat) (e : Err)
    (h : get_voice_state_list s g = .error e) :
    get_voice_states s g = .error e ∧
    (delete_voice_states s g).2 = .ok 0 := by
  constructor
  · unfold get_voice_states
    rw [h, except_bind_error]
  · unfold delete_voice_states
    rw [h]
    rfl

theorem C7_witness :
    get_voice_states storeVoice15 1 = .error .redis ∧
    (delete_voice_states storeVoice15 1).2 = .ok 0 :=
  C7_propagation storeVoice15 1 .redis rfl

/-- C8.  A voice-state key that was never written materializes to
`Ok(None)`, and a guild whose hash key was never written materializes to the
not-found error (`Error::None`) — never to a default-valued object. -/
theorem C8_absent_keys_not_found (s : Store) (g u i : Nat)
    (h1 : s (gen.user_voice_state g u) = none)
    (h2 : s (gen.guild i) = none) :
    get_voice_state s g u = .ok none ∧ get_guild s i = .error .noneE := by
  constructor
  · exact get_voice_state_absent s g u h1
  · unfold get_guild
    have hh : hgetallCmd s (gen.guild i) = .ok [] := by
      unfold hgetallCmd
      rw [h2]
    rw [hh, except_bind_ok]
    rfl

theorem C8_witness :
    get_voice_state emptyStore 1 5 = .ok none ∧
    get_guild emptyStore 1 = .error .noneE :=
  C8_absent_keys_not_found emptyStore 1 5 1 rfl rfl

/-- C10.  `upsert_voice_state_info` writes only the `endpoint` and `token`
fields of the user's voice-state hash: every other key of the store is
unchanged, every other field of that hash is unchanged, no membership set
changes anywhere, and (when the key is absent or a hash, the only shapes the
cache itself produces there) the `endpoint` and `token` fields afterwards
hold exactly the given values. -/
theorem C10_upsert_voice_state_info_frame (s : Store) (g u : Nat)
    (endpoint token : String) :
    (∀ k, k ≠ gen.user_voice_state g u →
      upsert_voice_state_info s g u endpoint token k = s k) ∧
    (∀ f, f ≠ "endpoint" → f ≠ "token" →
      hashField (upsert_voice_state_info s g u endpoint token)
        (gen.user_voice_state g u) f =
      hashField s (gen.user_voice_state g u) f) ∧
    (∀ k x, setMem (upsert_voice_state_info s g u endpoint token) k x =
      setMem s k x) ∧
    ((s (gen.user_voice_state g u) = none ∨
      ∃ l, s (gen.user_voice_state g u) = some (.hash l)) →
      hashField (upsert_voice_state_info s g u endpoint token)
        (gen.user_voice_state g u) "endpoint" = some endpoint ∧
      hashField (upsert_voice_state_info s g u endpoint token)
        (gen.user_voice_state g u) "token" = some token) := by
  unfold upsert_voice_state_info
  refine ⟨?_, ?_, ?_, ?_⟩
  · intro k hk
    exact hmset_sync_apply_ne s (gen.user_voice_state g u) _ k hk
  · intro f hf1 hf2
    unfold hashField
    cases hsk : s (gen.user_voice_state g u) with
    | none =>
      rw [hmset_sync_apply_self_none s _ _ hsk]
      show lookupK [("endpoint", endpoint), ("token", token)] f = none
      simp [lookupK, Ne.symm hf1, Ne.symm hf2]
    | some v =>
      cases v with
      | hash l =>
        rw [hmset_sync_apply_self_hash s _ _ l hsk]
        show lookupK (setKs l [("endpoint", endpoint), ("token", token)]) f
          = lookupK l f
        rw [lookupK_setKs l _ f (by simp)]
        have hvs : lookupK [("endpoint", endpoint), ("token", token)] f
            = none := by
          simp [lookupK, Ne.symm hf1, Ne.symm hf2]
        rw [hvs]
      | str a =>
        have hs : hmset_sync s (gen.user_voice_state g u)
            [("endpoint", endpoint), ("token", token)] = s := by
          unfold hmset_sync
          rw [hsk]
        rw [hs, hsk]
      | rset l =>
        have hs : hmset_sync s (gen.user_voice_state g u)
            [("endpoint", endpoint), ("token", token)] = s := by
          unfold hmset_sync
          rw [hsk]
        rw [hs, hsk]
  · intro k x
    by_cases hk : k = gen.user_voice_state g u
    · subst hk
      unfold setMem
      cases hsk : s (gen.user_voice_state g u) with
      | none => rw [hmset_sync_apply_self_none s _ _ hsk]
      | some v =>
        cases v with
        | hash l => rw [hmset_sync_apply_self_hash s _ _ l hsk]
        | str a =>
          have hs : hmset_sync s (gen.user_voice_state g u)
              [("endpoint", endpoint), ("token", token)] = s := by
            unfold hmset_sync
            rw [hsk]
          rw [hs, hsk]
        | rset l =>
          have hs : hmset_sync s (gen.user_voice_state g u)
              [("endpoint", endpoint), ("token", token)] = s := by
            unfold hmset_sync
            rw [hsk]
          rw [hs, hsk]
    · unfold setMem
      rw [hmset_sync_apply_ne s _ _ k hk]
  · intro hshape
    unfold hashField
    rcases hshape with hsk | ⟨l, hsk⟩
    · rw [hmset_sync_apply_self_none s _ _ hsk]
      constructor
      · rfl
      · rfl
    · rw [hmset_sync_apply_self_hash s _ _ l hsk]
      constructor
      · show lookupK (setKs l [("endpoint", endpoint), ("token", token)])
          "endpoint" = some endpoint
        rw [lookupK_setKs l _ "endpoint" (by simp)]
        rfl
      · show lookupK (setKs l [("endpoint", endpoint), ("token", token)])
          "token" = some token
        rw [lookupK_setKs l _ "token" (by simp)]
        rfl

theorem C10_witness :
    upsert_voice_state_info emptyStore 1 5 "ep" "tok" "g:2:v:7"
      = emptyStore "g:2:v:7" ∧
    hashField (upsert_voice_state_info emptyStore 1 5 "ep" "tok")
      "g:1:v:5" "channel_id"
      = hashField emptyStore "g:1:v:5" "channel_id" ∧
    setMem (upsert_voice_state_info emptyStore 1 5 "ep" "tok") "g:1:v" "5"
      = setMem emptyStore "g:1:v" "5" ∧
    hashField (upsert_voice_state_info emptyStore 1 5 "ep" "tok")
      "g:1:v:5" "endpoint" = some "ep" ∧
    hashField (upsert_voice_state_info emptyStore 1 5 "ep" "tok")
      "g:1:v:5" "token" = some "tok" := by
  obtain ⟨h1, h2, h3, h4⟩ :=
    C10_upsert_voice_state_info_frame emptyStore 1 5 "ep" "tok"
  have he : gen.user_voice_state 1 5 = "g:1:v:5" := rfl
  refine ⟨h1 "g:2:v:7" (by rw [he]; decide), ?_, h3 "g:1:v" "5", ?_, ?_⟩
  · have := h2 "channel_id" (by decide) (by decide)
    rw [he] at this
    exact this
  · have := (h4 (Or.inl rfl)).1
    rw [he] at this
    exact this
  · have := (h4 (Or.inl rfl)).2
    rw [he] at this
    exact this

/-- C9.  Applying the same `upsert_voice_state` transition twice in
succession with identical input yields exactly the same store — hence the
same value at every key, hash field, and set membership — and the same
result as applying it once.  The hypotheses only require that the input's
channel id (if present) fits `u64` (true of every `serenity` snapshot) and
that the currently stored voice-state hash, if any, has no duplicate fields
(true of every Redis hash). -/
theorem C9_upsert_voice_state_idempotent (s : Store) (g : Nat)
    (st : VoiceStateInput)
    (hcid : ∀ c, st.channel_id = some c → c < 2 ^ 64)
    (hnd : ∀ H, s (gen.user_voice_state g st.user_id) = some (.hash H) →
      (H.map Prod.fst).Nodup) :
    upsert_voice_state (upsert_voice_state s g st).1 g st
      = upsert_voice_state s g st := by
  cases hget : get_voice_state s g st.user_id with
  | error e =>
    have h1 : upsert_voice_state s g st = (s, .error e) := by
      unfold upsert_voice_state
      rw [hget]
    rw [h1]
    exact h1
  | ok old =>
    have hshape := get_voice_state_ok_shape s g st.user_id old hget
    cases hco : st.channel_id with
    | none =>
      cases old with
      | none =>
        have h1 : upsert_voice_state s g st
            = (del_sync (srem_sync s (gen.guild_voice_states g)
                [natToDec st.user_id]) (gen.user_voice_state g st.user_id),
              .ok ()) := by
          unfold upsert_voice_state
          rw [hget, hco]
        rw [h1]
        exact upsert_none_second s g st hco
      | some oldSt =>
        have h1 : upsert_voice_state s g st
            = (del_sync (srem_sync (srem_sync s
                (gen.channel_voice_states oldSt.channel_id)
                [natToDec st.user_id]) (gen.guild_voice_states g)
                [natToDec st.user_id]) (gen.user_voice_state g st.user_id),
              .ok ()) := by
          unfold upsert_voice_state
          rw [hget, hco]
        rw [h1]
        exact upsert_none_second _ g st hco
    | some cid =>
      have hcidb : cid < 2 ^ 64 := hcid cid hco
      cases htok : st.token with
      | none =>
        obtain ⟨B, hBnd, hBtok, hBkey⟩ := hmset_after_hdel_key s
          (gen.user_voice_state g st.user_id) (voiceFields st cid) hshape hnd
        cases old with
        | none =>
          have h1 : upsert_voice_state s g st
              = (sadd_sync (hmset_sync (hdel_sync s
                  (gen.user_voice_state g st.user_id) ["token"])
                  (gen.user_voice_state g st.user_id) (voiceFields st cid))
                  (gen.channel_voice_states cid) [natToDec st.user_id],
                .ok ()) := by
            unfold upsert_voice_state
            rw [hget, hco, htok]
          have hXkey : (sadd_sync (hmset_sync (hdel_sync s
              (gen.user_voice_state g st.user_id) ["token"])
              (gen.user_voice_state g st.user_id) (voiceFields st cid))
              (gen.channel_voice_states cid) [natToDec st.user_id])
              (gen.user_voice_state g st.user_id)
              = some (.hash (setKs B (voiceFields st cid))) := by
            rw [sadd_sync_apply_ne _ _ _ _
              (Ne.symm (channel_key_ne_user_key cid g st.user_id))]
            exact hBkey
          rw [h1]
          exact upsert_present_second _ g st cid hco hcidb B hBnd
            (fun _ => hBtok) hXkey
        | some oldSt =>
          by_cases hoc : oldSt.channel_id = cid
          · have h1 : upsert_voice_state s g st
                = (hmset_sync (hdel_sync s
                    (gen.user_voice_state g st.user_id) ["token"])
                    (gen.user_voice_state g st.user_id) (voiceFields st cid),
                  .ok ()) := by
              unfold upsert_voice_state
              rw [hget, hco, htok]
              show (if oldSt.channel_id ≠ cid then _ else _) = _
              rw [if_neg (by simp [hoc])]
            rw [h1]
            exact upsert_present_second _ g st cid hco hcidb B hBnd
              (fun _ => hBtok) hBkey
          · have h1 : upsert_voice_state s g st
                = (sadd_sync (srem_sync (hmset_sync (hdel_sync s
                    (gen.user_voice_state g st.user_id) ["token"])
                    (gen.user_voice_state g st.user_id) (voiceFields st cid))
                    (gen.channel_voice_states oldSt.channel_id)
                    [natToDec st.user_id])
                    (gen.channel_voice_states cid) [natToDec st.user_id],
                  .ok ()) := by
              unfold upsert_voice_state
              rw [hget, hco, htok]
              show (if oldSt.channel_id ≠ cid then _ else _) = _
              rw [if_pos hoc]
            have hXkey : (sadd_sync (srem_sync (hmset_sync (hdel_sync s
                (gen.user_voice_state g st.user_id) ["token"])
                (gen.user_voice_state g st.user_id) (voiceFields st cid))
                (gen.channel_voice_states oldSt.channel_id)
                [natToDec st.user_id])
                (gen.channel_voice_states cid) [natToDec st.user_id])
                (gen.user_voice_state g st.user_id)
                = some (.hash (setKs B (voiceFields st cid))) := by
              rw [sadd_sync_apply_ne _ _ _ _
                (Ne.symm (channel_key_ne_user_key cid g st.user_id))]
              rw [srem_sync_apply_ne _ _ _ _
                (Ne.symm (channel_key_ne_user_key oldSt.channel_id g
                  st.user_id))]
              exact hBkey
            rw [h1]
            exact upsert_present_second _ g st cid hco hcidb B hBnd
              (fun _ => hBtok) hXkey
      | some t =>
        obtain ⟨B, hBnd, hBkey⟩ := hmset_key_shape s
          (gen.user_voice_state g st.user_id) (voiceFields st cid) hshape hnd
        have hBtok : st.token = none → lookupK B "token" = none := by
          intro hnone
          rw [hnone] at htok
          exact Option.noConfusion htok
        cases old with
        | none =>
          have h1 : upsert_voice_state s g st
              = (sadd_sync (hmset_sync s
                  (gen.user_voice_state g st.user_id) (voiceFields st cid))
                  (gen.channel_voice_states cid) [natToDec st.user_id],
                .ok ()) := by
            unfold upsert_voice_state
            rw [hget, hco, htok]
          have hXkey : (sadd_sync (hmset_sync s
              (gen.user_voice_state g st.user_id) (voiceFields st cid))
              (gen.channel_voice_states cid) [natToDec st.user_id])
              (gen.user_voice_state g st.user_id)
              = some (.hash (setKs B (voiceFields st cid))) := by
            rw [sadd_sync_apply_ne _ _ _ _
              (Ne.symm (channel_key_ne_user_key cid g st.user_id))]
            exact hBkey
          rw [h1]
          exact upsert_present_second _ g st cid hco hcidb B hBnd hBtok hXkey
        | some oldSt =>
          by_cases hoc : oldSt.channel_id = cid
          · have h1 : upsert_voice_state s g st
                = (hmset_sync s (gen.user_voice_state g st.user_id)
                    (voiceFields st cid), .ok ()) := by
              unfold upsert_voice_state
              rw [hget, hco, htok]
              show (if oldSt.channel_id ≠ cid then _ else _) = _
              rw [if_neg (by simp [hoc])]
            rw [h1]
            exact upsert_present_second _ g st cid hco hcidb B hBnd hBtok
              hBkey
          · have h1 : upsert_voice_state s g st
                = (sadd_sync (srem_sync (hmset_sync s
                    (gen.user_voice_state g st.user_id) (voiceFields st cid))
                    (gen.channel_voice_states oldSt.channel_id)
                    [natToDec st.user_id])
                    (gen.channel_voice_states cid) [natToDec st.user_id],
                  .ok ()) := by
              unfold upsert_voice_state
              rw [hget, hco, htok]
              show (if oldSt.channel_id ≠ cid then _ else _) = _
              rw [if_pos hoc]
            have hXkey : (sadd_sync (srem_sync (hmset_sync s
                (gen.user_voice_state g st.user_id) (voiceFields st cid))
                (gen.channel_voice_states oldSt.channel_id)
                [natToDec st.user_id])
                (gen.channel_voice_states cid) [natToDec st.user_id])
                (gen.user_voice_state g st.user_id)
                = some (.hash (setKs B (voiceFields st cid))) := by
              rw [sadd_sync_apply_ne _ _ _ _
                (Ne.symm (channel_key_ne_user_key cid g st.user_id))]
              rw [srem_sync_apply_ne _ _ _ _
                (Ne.symm (channel_key_ne_user_key oldSt.channel_id g
                  st.user_id))]
              exact hBkey
            rw [h1]
            exact upsert_present_second _ g st cid hco hcidb B hBnd hBtok
              hXkey

theorem C9_witness :
    upsert_voice_state (upsert_voice_state emptyStore 1 stChannel4).1 1
      stChannel4 = upsert_voice_state emptyStore 1 stChannel4 :=
  C9_upsert_voice_state_idempotent emptyStore 1 stChannel4
    (fun c hc => by
      have hc2 : some 4 = some c := hc
      injection hc2 with h
      subst h
      decide)
    (fun H hH => by
      have hH2 : (none : Option RVal) = some (.hash H) := hH
      exact Option.noConfusion hH2)

end Cache

